import Mathlib

/-!
Verification development for the `logseq-searcher` library.

The library stores Markdown documents in a relational table and offers
lexical, semantic and hybrid search over them.  We embed the Python
modules `db.py`, `loader.py` and `search.py` shallowly:

* a stored row of the `documents` table becomes `Row V` (with `V` the
  vector type of the `embedding` column, `Option` modelling SQL NULL);
* the database state is a list of rows in id order;
* the external collaborators (PostgreSQL full-text engine, pgvector's
  `<=>` operator, the Ollama embedding server) enter as function
  parameters, except cosine distance which we spell out over `ℝ` where
  a claim depends on its range;
* SQL `ORDER BY ... LIMIT ...` becomes an insertion sort by key
  followed by `List.take`.
-/

namespace LogseqSearcher

/-! ### Filesystem and data model -/

/-- A file in a vault directory as seen by `directory.glob('*.md')` and
`read_text`: `contents = none` models a file whose read raises an
exception (caught, logged and skipped by `load_markdown_files`). -/
structure MdFile where
  name : String
  contents : Option String
deriving DecidableEq

/-- A document draft produced by `load_markdown_files` (`loader.py`),
a dictionary with filename, doc_type, title and content. -/
structure Doc where
  filename : String
  doc_type : String
  title : String
  content : String
deriving DecidableEq

/-- A stored row of the `documents` table.  `V` is the vector type of the
`embedding` column; `embedding = none` models SQL NULL. -/
structure Row (V : Type) where
  id : Nat
  filename : String
  doc_type : String
  title : String
  content : String
  embedding : Option V
deriving DecidableEq

/-- The database state: the rows of `documents`, listed in `id` order. -/
abbrev DB (V : Type) := List (Row V)

/-! ### `load_markdown_files` (loader.py)

`content = content.replace('\x00', '')` removes every NUL character;
on the `List Char` view of the string this is exactly a `filter`. -/

/-- `content.replace('\x00', '')`: drop every NUL code point. -/
def stripNul (s : String) : String :=
  ⟨s.data.filter (fun c => c ≠ '\x00')⟩

/-- The `*.md` test of `directory.glob('*.md')`, on the character list:
the name ends in `.md`. -/
def isMdName (name : String) : Bool :=
  name.data.reverse.take 3 = ['d', 'm', '.']

/-- `Path.stem` for a `*.md` file: the name without its `.md` suffix. -/
def stemOf (name : String) : String :=
  ⟨name.data.take (name.data.length - 3)⟩

/-- `load_markdown_files(directory, doc_type)`: keep the `*.md` files,
read each one (skipping files whose read fails), strip NUL bytes from
the content, and take the stem as title. -/
def load_markdown_files (files : List MdFile) (dt : String) : List Doc :=
  files.filterMap fun f =>
    if isMdName f.name then
      f.contents.map fun c =>
        { filename := f.name, doc_type := dt, title := stemOf f.name
          content := stripNul c }
    else none

/-! ### Sorting by key (`ORDER BY` over a computed column) -/

/-- Insert into a list ascending in `key` (used for `ORDER BY dist`). -/
def insertAscBy {α K : Type} [LinearOrder K] (key : α → K) (a : α) :
    List α → List α
  | [] => [a]
  | b :: l => if key a ≤ key b then a :: b :: l else b :: insertAscBy key a l

/-- Sort a list ascending in `key`. -/
def sortAscBy {α K : Type} [LinearOrder K] (key : α → K) : List α → List α
  | [] => []
  | b :: l => insertAscBy key b (sortAscBy key l)

/-- Insert into a list descending in `key` (used for `ORDER BY ... DESC`). -/
def insertDescBy {α K : Type} [LinearOrder K] (key : α → K) (a : α) :
    List α → List α
  | [] => [a]
  | b :: l => if key b ≤ key a then a :: b :: l else b :: insertDescBy key a l

/-- Sort a list descending in `key`. -/
def sortDescBy {α K : Type} [LinearOrder K] (key : α → K) : List α → List α
  | [] => []
  | b :: l => insertDescBy key b (sortDescBy key l)

/-! ### Schema (`create_schema`, db.py) and the package import surface -/

/-- The column names of the table created by `create_schema()` in db.py:
`id SERIAL, filename TEXT, doc_type TEXT, title TEXT, content TEXT,
content_tsv TSVECTOR, created_at TIMESTAMP`. -/
def create_schema_columns : List String :=
  ["id", "filename", "doc_type", "title", "content", "content_tsv", "created_at"]

/-- The column list of `insert_documents`' INSERT when `with_embeddings=True`
(loader.py): `INSERT INTO documents (filename, doc_type, title, content,
embedding) VALUES %s`. -/
def insert_with_embeddings_columns : List String :=
  ["filename", "doc_type", "title", "content", "embedding"]

/-- The column written by `add_embeddings_to_existing`'s
`UPDATE documents SET embedding = %s WHERE id = %s` (loader.py). -/
def backfill_update_columns : List String :=
  ["embedding"]

/-- A statement addressing only columns present in the schema succeeds at
the storage layer; one naming an absent column is rejected. -/
def columnsOk (stmt schema : List String) : Bool :=
  stmt.all (fun c => schema.contains c)

/-- The module-level names bound by db.py (imports and definitions). -/
def db_module_names : List String :=
  ["os", "contextmanager", "psycopg2", "load_dotenv",
   "load_db_config", "_db_config", "init_db", "get_connection",
   "get_cursor", "create_schema"]

/-- The names `__init__.py` imports from `.db`:
`from .db import init_db, create_schema, get_connection, get_cursor,
EMBEDDING_DIM`. -/
def init_imports_from_db : List String :=
  ["init_db", "create_schema", "get_connection", "get_cursor", "EMBEDDING_DIM"]

/-- `from .db import n1, ..., nk` binds each listed name, raising
ImportError at the first name the module does not define. -/
def import_logseq_searcher : Except String Unit :=
  match init_imports_from_db.find? (fun n => !db_module_names.contains n) with
  | some n => .error n
  | none => .ok ()

/-! ### Configuration loading (`load_db_config`, db.py) -/

/-- The process environment as seen by `os.getenv`: `none` models an
unset variable. -/
structure Env where
  host : Option String
  port : Option String
  dbname : Option String
  user : Option String
  password : Option String

/-- Python truthiness test `not v` on an `os.getenv` result: `None` and
the empty string are falsy. -/
def falsy : Option String → Bool
  | none => true
  | some s => s.isEmpty

/-- The connection-parameter dictionary built by `load_db_config`. -/
structure DbConfig where
  host : String
  port : String
  dbname : String
  user : String
  password : String
deriving DecidableEq

/-- `missing = [k for k, v in config.items() if not v and k != 'port']`:
the falsy keys in dictionary order, with `port` exempt. -/
def missingOf (e : Env) : List String :=
  (if falsy e.host then ["host"] else []) ++
  (if falsy e.dbname then ["dbname"] else []) ++
  (if falsy e.user then ["user"] else []) ++
  (if falsy e.password then ["password"] else [])

/-- `load_db_config` (db.py): read the five `DB_*` variables (with
`'5432'` as the default for the port), and raise `ValueError` listing the
missing keys when any required one is falsy. -/
def load_db_config (e : Env) : Except (List String) DbConfig :=
  if missingOf e = [] then
    .ok { host := e.host.getD "", port := e.port.getD "5432",
          dbname := e.dbname.getD "", user := e.user.getD "",
          password := e.password.getD "" }
  else
    .error (missingOf e)

/-! ### Semantic search (`semantic_search`, search.py)

The pgvector operator `embedding <=> q` is cosine distance.  We keep the
field `K` generic so the search pipeline stays executable; the claim
about the similarity range instantiates `K := ℝ` and the distance with
`cosineDistance Real.sqrt`. -/

/-- The dot product of two `n`-vectors. -/
def dotP {K : Type} [CommRing K] {n : Nat} (u v : Fin n → K) : K :=
  ∑ i, u i * v i

/-- pgvector's cosine distance `u <=> v`, written over an abstract square
root `rt` so the definition stays executable; the claims instantiate
`rt := Real.sqrt`. -/
def cosineDistance {K : Type} [Field K] {n : Nat} (rt : K → K)
    (u v : Fin n → K) : K :=
  1 - dotP u v / (rt (dotP u u) * rt (dotP v v))

/-- One row returned by `semantic_search`. -/
structure SemRow (K : Type) where
  id : Nat
  filename : String
  doc_type : String
  title : String
  similarity : K
  snippet : String
deriving DecidableEq

/-- `semantic_search(query, limit, doc_type)` (search.py): restrict to
rows with a non-NULL embedding, optionally filter by `doc_type`, order by
`embedding <=> query_embedding` ascending and take `limit` rows,
reporting `1 - distance` as similarity and `LEFT(content, 200)` as the
snippet.  `vdist e` is the engine's distance from `e` to the query
embedding. -/
def semantic_search {V K : Type} [LinearOrderedField K] (vdist : V → K)
    (db : DB V) (dt : Option String) (limit : Nat) : List (SemRow K) :=
  let cands := db.filterMap (fun r => r.embedding.map (fun e => (r, vdist e)))
  let cands' := match dt with
    | some t => cands.filter (fun p => p.1.doc_type = t)
    | none => cands
  ((sortAscBy (fun p => p.2) cands').take limit).map
    (fun p => { id := p.1.id, filename := p.1.filename
                doc_type := p.1.doc_type, title := p.1.title
                similarity := 1 - p.2, snippet := p.1.content.take 200 })

/-! ### Hybrid search (`hybrid_search`, search.py)

The SQL builds a `combined` CTE over a full-text CTE `f` and a semantic
CTE `s`, with

  `WHERE f.id IS NOT NULL OR s.similarity > 0.3`

and, when a `doc_type` is given, the code appends `" AND d.doc_type = %s"`
to that string.  SQL gives `AND` higher precedence than `OR`, so the
filter actually parses as
`f.id IS NOT NULL OR (s.similarity > 0.3 AND d.doc_type = t)`.
`mq d` models `d.content_tsv @@ plainto_tsquery(query)`, `rq d` models
`ts_rank` for the query, `vdist e` the distance `e <=> query_embedding`,
and `hl` the `ts_headline` call. -/

/-- One row returned by `hybrid_search`. -/
structure HRow where
  id : Nat
  filename : String
  doc_type : String
  title : String
  combined_score : ℚ
  fts_rank : ℚ
  similarity : ℚ
  headline : String
deriving DecidableEq

/-- The WHERE clause of the `combined` CTE, with SQL's `AND`-over-`OR`
precedence: the appended doc_type test binds to the similarity disjunct
only.  A row with a NULL semantic similarity fails the comparison. -/
def hybridIncluded {V : Type} (mq : Row V → Bool) (vdist : V → ℚ)
    (dt : Option String) (d : Row V) : Bool :=
  mq d ||
    match d.embedding, dt with
    | some e, some t => decide ((3 : ℚ)/10 < 1 - vdist e) && decide (d.doc_type = t)
    | some e, none => decide ((3 : ℚ)/10 < 1 - vdist e)
    | none, _ => false

/-- The SELECT of the `combined` CTE for one document:
`COALESCE(f.fts_rank, 0)`, `COALESCE(s.similarity, 0)` and their weighted
sum. -/
def hybridRow {V : Type} (mq : Row V → Bool) (rq : Row V → ℚ)
    (vdist : V → ℚ) (hl : String → String) (w1 w2 : ℚ) (d : Row V) : HRow :=
  let f : ℚ := if mq d then rq d else 0
  let s : ℚ := match d.embedding with
    | some e => 1 - vdist e
    | none => 0
  { id := d.id, filename := d.filename, doc_type := d.doc_type
    title := d.title, combined_score := f * w1 + s * w2
    fts_rank := f, similarity := s, headline := hl d.content }

/-- `hybrid_search(query, limit, doc_type, fts_weight, semantic_weight)`
(search.py): keep the rows passing `hybridIncluded`, project each through
`hybridRow`, order by combined score descending, and take `limit` rows. -/
def hybrid_search {V : Type} (mq : Row V → Bool) (rq : Row V → ℚ)
    (vdist : V → ℚ) (hl : String → String) (db : DB V) (dt : Option String)
    (w1 w2 : ℚ) (limit : Nat) : List HRow :=
  (sortDescBy HRow.combined_score
    ((db.filter (hybridIncluded mq vdist dt)).map
      (hybridRow mq rq vdist hl w1 w2))).take limit

/-! ### Inserting documents (`insert_documents`, loader.py) -/

/-- The text embedded for a draft: `f"{doc['title']}\n\n{doc['content']}"`. -/
def embText (d : Doc) : String := d.title ++ "\n\n" ++ d.content

/-- The text embedded for a stored row during backfill:
`f"{row[1]}\n\n{row[2]}"` where the row is `(id, title, content)`. -/
def embTextRow {V : Type} (r : Row V) : String := r.title ++ "\n\n" ++ r.content

/-- The rows inserted for a list of drafts, with ids assigned by the
`SERIAL` sequence starting at `i`; with `with_embeddings=True` each row
gets `embed` of its title-and-content text, otherwise a NULL embedding. -/
def rowsOf {V : Type} (withEmb : Bool) (embed : String → V) :
    Nat → List Doc → List (Row V)
  | _, [] => []
  | i, d :: ds =>
    { id := i, filename := d.filename, doc_type := d.doc_type
      title := d.title, content := d.content
      embedding := if withEmb then some (embed (embText d)) else none } ::
      rowsOf withEmb embed (i + 1) ds

/-- The successful path of `insert_documents(documents, with_embeddings)`:
one row appended per draft (an empty list returns before opening a
connection, appending nothing). -/
def insert_documents {V : Type} (withEmb : Bool) (embed : String → V)
    (docs : List Doc) (db : DB V) : DB V :=
  db ++ rowsOf withEmb embed db.length docs

/-! ### Vault loading (`load_logseq_vault`, loader.py) -/

/-- The dictionary returned by `load_logseq_vault`. -/
structure VaultCounts where
  pages : Nat
  journals : Nat
  total : Nat
deriving DecidableEq

/-- The `for i in range(0, total, batch_size)` loop of `load_logseq_vault`
when `with_embeddings=True`: insert the documents chunk by chunk,
recording the `progress_callback(min(i + batch_size, total), total)`
calls.  `i` is the running offset. -/
def insertBatchesEmb {V : Type} (embed : String → V) (bs : Nat)
    (docs : List Doc) (db : DB V) (i total : Nat) :
    DB V × List (Nat × Nat) :=
  if h : docs = [] ∨ bs = 0 then (db, [])
  else
    let db' := insert_documents true embed (docs.take bs) db
    let r := insertBatchesEmb embed bs (docs.drop bs) db' (i + bs) total
    (r.1, (min (i + bs) total, total) :: r.2)
termination_by docs.length
decreasing_by
  push_neg at h
  simp only [List.length_drop]
  exact Nat.sub_lt (List.length_pos.mpr h.1) (Nat.pos_of_ne_zero h.2)

/-- `load_logseq_vault(vault_path, with_embeddings, batch_size,
progress_callback)`: load `pages/` as doc_type `page` and `journals/` as
doc_type `journal`, insert them (chunked when embeddings are requested —
`range(0, total, 0)` raises `ValueError` when `batch_size` is zero), and
return the final database, the counts dictionary and the trace of
progress-callback calls. -/
def load_logseq_vault {V : Type} (embed : String → V)
    (pagesDir journalsDir : List MdFile) (withEmb : Bool) (bs : Nat)
    (db : DB V) :
    Except String (DB V × VaultCounts × List (Nat × Nat)) :=
  let pages := load_markdown_files pagesDir "page"
  let journals := load_markdown_files journalsDir "journal"
  let allDocs := pages ++ journals
  let total := allDocs.length
  if withEmb then
    if bs = 0 then .error "ValueError"
    else
      let r := insertBatchesEmb embed bs allDocs db 0 total
      .ok (r.1, ⟨pages.length, journals.length, total⟩, r.2)
  else
    .ok (insert_documents false embed allDocs db,
         ⟨pages.length, journals.length, total⟩, [(total, total)])

/-- `get_document_count()` (search.py): `SELECT doc_type, COUNT(*) FROM
documents GROUP BY doc_type`, as an association list over the doc_types
present. -/
def get_document_count {V : Type} (db : DB V) : List (String × Nat) :=
  (db.map Row.doc_type).dedup.map
    (fun t => (t, ((db.map Row.doc_type).count t)))

/-! ### Backfill (`add_embeddings_to_existing`, loader.py) -/

/-- `embedding IS NULL`. -/
def nullEmbedding {V : Type} (r : Row V) : Bool := r.embedding.isNone

/-- `SELECT COUNT(*) FROM documents WHERE embedding IS NULL`. -/
def nullCount {V : Type} (db : DB V) : Nat :=
  (db.filter nullEmbedding).length

/-- `SELECT id, title, content FROM documents WHERE embedding IS NULL
ORDER BY id LIMIT batch_size` (the database is kept in id order). -/
def fetchNullBatch {V : Type} (bs : Nat) (db : DB V) : List (Row V) :=
  (db.filter nullEmbedding).take bs

/-- `UPDATE documents SET embedding = %s WHERE id = %s`. -/
def updateOne {V : Type} (v : V) (i : Nat) (db : DB V) : DB V :=
  db.map (fun r => if r.id = i then { r with embedding := some v } else r)

/-- One batch's updates: for each fetched row, in order, write the
embedding generated from its title-and-content text back by id. -/
def applyUpdates {V : Type} (embed : String → V) (rows : List (Row V))
    (db : DB V) : DB V :=
  rows.foldl (fun acc q => updateOne (embed (embTextRow q)) q.id acc) db

/-- `nullCount` of a cons. -/
theorem nullCount_cons {V : Type} (r : Row V) (db : DB V) :
    nullCount (r :: db) = (if nullEmbedding r then 1 else 0) + nullCount db := by
  simp only [nullCount, List.filter_cons]
  split
  · simp [Nat.add_comm]
  · simp

/-- `updateOne` of a cons. -/
theorem updateOne_cons {V : Type} (v : V) (i : Nat) (r : Row V) (db : DB V) :
    updateOne v i (r :: db) =
      (if r.id = i then { r with embedding := some v } else r) ::
        updateOne v i db := rfl

/-- A row whose embedding was just written is not NULL. -/
theorem nullEmbedding_set {V : Type} (v : V) (r : Row V) :
    nullEmbedding { r with embedding := some v } = false := rfl

/-- Counting is monotone under `updateOne`: an update never turns a
non-NULL embedding into NULL. -/
theorem nullCount_updateOne_le {V : Type} (v : V) (i : Nat) :
    ∀ db : DB V, nullCount (updateOne v i db) ≤ nullCount db := by
  intro db
  induction db with
  | nil => simp [updateOne, nullCount]
  | cons r db ih =>
    rw [updateOne_cons, nullCount_cons, nullCount_cons]
    by_cases hid : r.id = i
    · rw [if_pos hid, nullEmbedding_set]
      cases hr : nullEmbedding r <;> simp [hr] <;> omega
    · rw [if_neg hid]
      cases hr : nullEmbedding r <;> simp [hr] <;> omega

/-- Updating the id of a stored NULL-embedding row strictly decreases the
NULL count. -/
theorem nullCount_updateOne_lt {V : Type} (v : V) (q : Row V) :
    ∀ db : DB V, q ∈ db → nullEmbedding q = true →
      nullCount (updateOne v q.id db) < nullCount db := by
  intro db
  induction db with
  | nil => simp
  | cons r db ih =>
    intro hq hnull
    rw [updateOne_cons, nullCount_cons, nullCount_cons]
    rcases List.mem_cons.mp hq with rfl | hq
    · rw [if_pos rfl, nullEmbedding_set]
      have hle := nullCount_updateOne_le v q.id db
      simp [hnull]
      omega
    · by_cases hid : r.id = q.id
      · rw [if_pos hid, nullEmbedding_set]
        have hle := nullCount_updateOne_le v q.id db
        have hlt := ih hq hnull
        cases hr : nullEmbedding r <;> simp [hr] <;> omega
      · rw [if_neg hid]
        have hlt := ih hq hnull
        cases hr : nullEmbedding r <;> simp [hr] <;> omega

/-- Counting is monotone under a whole batch of updates. -/
theorem nullCount_applyUpdates_le {V : Type} (embed : String → V) :
    ∀ (rows : List (Row V)) (db : DB V),
      nullCount (applyUpdates embed rows db) ≤ nullCount db := by
  intro rows
  induction rows with
  | nil => intro db; simp [applyUpdates]
  | cons q rows ih =>
    intro db
    calc nullCount (applyUpdates embed (q :: rows) db)
        = nullCount (applyUpdates embed rows
            (updateOne (embed (embTextRow q)) q.id db)) := rfl
      _ ≤ nullCount (updateOne (embed (embTextRow q)) q.id db) := ih _
      _ ≤ nullCount db := nullCount_updateOne_le _ _ db

/-- A non-empty fetched batch strictly decreases the NULL count once its
updates are applied: the backfill loop terminates. -/
theorem nullCount_applyUpdates_lt {V : Type} (embed : String → V)
    (bs : Nat) (db : DB V) (h : fetchNullBatch bs db ≠ []) :
    nullCount (applyUpdates embed (fetchNullBatch bs db) db) < nullCount db := by
  obtain ⟨q, rest, hrows⟩ := List.exists_cons_of_ne_nil h
  have hq : q ∈ db ∧ nullEmbedding q = true := by
    have h1 : q ∈ fetchNullBatch bs db := by
      rw [hrows]; exact List.mem_cons_self _ _
    have h2 : q ∈ db.filter nullEmbedding := List.mem_of_mem_take h1
    simpa [List.mem_filter] using h2
  rw [hrows]
  calc nullCount (applyUpdates embed (q :: rest) db)
      = nullCount (applyUpdates embed rest
          (updateOne (embed (embTextRow q)) q.id db)) := rfl
    _ ≤ nullCount (updateOne (embed (embTextRow q)) q.id db) :=
        nullCount_applyUpdates_le embed rest _
    _ < nullCount db := nullCount_updateOne_lt _ q db hq.1 hq.2

/-- What a run of `add_embeddings_to_existing` produces: the final
database, the cumulative number of rows processed, the number of
`generate_embeddings` calls issued, and the trace of
`progress_callback(processed, total)` calls. -/
structure BackfillRes (V : Type) where
  db : DB V
  processed : Nat
  embedBatches : Nat
  callbacks : List (Nat × Nat)
deriving DecidableEq

/-- The `while True` loop of `add_embeddings_to_existing`: fetch a batch
of NULL-embedding rows, stop when none, otherwise embed them, write them
back, commit, and report cumulative progress. -/
def backfillLoop {V : Type} (embed : String → V) (bs : Nat) (db : DB V)
    (processed total : Nat) : BackfillRes V :=
  match h : fetchNullBatch bs db with
  | [] => ⟨db, processed, 0, []⟩
  | q :: rest =>
    let r := backfillLoop embed bs (applyUpdates embed (q :: rest) db)
      (processed + (q :: rest).length) total
    ⟨r.db, r.processed, r.embedBatches + 1,
      (processed + (q :: rest).length, total) :: r.callbacks⟩
termination_by nullCount db
decreasing_by
  have h1 := nullCount_applyUpdates_lt embed bs db (by rw [h]; simp)
  rwa [h] at h1

/-- `add_embeddings_to_existing(batch_size, progress_callback)`
(loader.py): count the NULL-embedding documents, return immediately when
there are none, otherwise run the batch loop. -/
def add_embeddings_to_existing {V : Type} (embed : String → V) (bs : Nat)
    (db : DB V) : BackfillRes V :=
  if nullCount db = 0 then ⟨db, 0, 0, []⟩
  else backfillLoop embed bs db 0 (nullCount db)

/-! ### Transactional shape of `insert_documents` (loader.py) -/

/-- The outcome of one `insert_documents` call: the propagated result,
and how many connections were opened and closed and how many commits
were issued along the way. -/
structure TxnTrace where
  result : Except String Unit
  opened : Nat
  closed : Nat
  commits : Nat

/-- The body of `insert_documents` inside the `with conn.cursor()` block:
`generate_embeddings` (only when `with_embeddings`) then `execute_values`;
the first failure aborts the rest. -/
def insertBody (withEmb : Bool) (embedR execR : Except String Unit) :
    Except String Unit :=
  match (if withEmb then embedR else .ok ()) with
  | .error e => .error e
  | .ok _ => execR

/-- The control flow of `insert_documents(documents, with_embeddings)`:
an empty list returns before any connection is opened; otherwise one
connection is opened, the body runs, `conn.commit()` is reached only
when the body succeeds, and the `finally` closes the connection on both
paths while the exception propagates. -/
def insert_documents_txn (withEmb : Bool) (embedR execR : Except String Unit)
    (docs : List Doc) : TxnTrace :=
  if docs = [] then ⟨.ok (), 0, 0, 0⟩
  else
    match insertBody withEmb embedR execR with
    | .ok _ => ⟨.ok (), 1, 1, 1⟩
    | .error e => ⟨.error e, 1, 1, 0⟩

/-! ### Whole-library write operations, for the stored-content invariant -/

/-- A write operation against the store: a vault load or a backfill run
(the only paths that create or update rows). -/
inductive Op (V : Type) where
  | loadVault (pagesDir journalsDir : List MdFile) (withEmb : Bool) (bs : Nat)
  | backfill (bs : Nat)

/-- Run one operation; a `ValueError` from `load_logseq_vault` is raised
before any insert, leaving the store unchanged. -/
def runOp {V : Type} (embed : String → V) (db : DB V) : Op V → DB V
  | .loadVault p j w bs =>
    match load_logseq_vault embed p j w bs db with
    | .ok r => r.1
    | .error _ => db
  | .backfill bs => (add_embeddings_to_existing embed bs db).db

/-- Run a sequence of write operations. -/
def runOps {V : Type} (embed : String → V) (ops : List (Op V)) (db : DB V) :
    DB V :=
  ops.foldl (runOp embed) db

/-! ## Supporting lemmas -/

theorem stripNul_no_nul (s : String) : '\x00' ∉ (stripNul s).data := by
  simp [stripNul]

theorem load_markdown_files_no_nul (files : List MdFile) (dt : String) :
    ∀ d ∈ load_markdown_files files dt, '\x00' ∉ d.content.data := by
  intro d hd
  simp only [load_markdown_files, List.mem_filterMap] at hd
  obtain ⟨f, -, hf⟩ := hd
  by_cases hmd : isMdName f.name
  · simp only [hmd, if_true, Option.map_eq_some'] at hf
    obtain ⟨c, -, rfl⟩ := hf
    exact stripNul_no_nul c
  · simp [hmd] at hf

theorem load_markdown_files_doc_type (files : List MdFile) (dt : String) :
    ∀ d ∈ load_markdown_files files dt, d.doc_type = dt := by
  intro d hd
  simp only [load_markdown_files, List.mem_filterMap] at hd
  obtain ⟨f, -, hf⟩ := hd
  by_cases hmd : isMdName f.name
  · simp only [hmd, if_true, Option.map_eq_some'] at hf
    obtain ⟨c, -, rfl⟩ := hf
    rfl
  · simp [hmd] at hf

theorem mem_insertAscBy {α K : Type} [LinearOrder K] (key : α → K) (a x : α) :
    ∀ l : List α, x ∈ insertAscBy key a l ↔ x = a ∨ x ∈ l := by
  intro l
  induction l with
  | nil => simp [insertAscBy]
  | cons b l ih =>
    by_cases h : key a ≤ key b
    · simp [insertAscBy, h]
    · simp only [insertAscBy, if_neg h, List.mem_cons, ih]
      tauto

theorem mem_sortAscBy {α K : Type} [LinearOrder K] (key : α → K) (x : α) :
    ∀ l : List α, x ∈ sortAscBy key l ↔ x ∈ l := by
  intro l
  induction l with
  | nil => simp [sortAscBy]
  | cons b l ih => simp [sortAscBy, mem_insertAscBy, ih]

theorem mem_insertDescBy {α K : Type} [LinearOrder K] (key : α → K) (a x : α) :
    ∀ l : List α, x ∈ insertDescBy key a l ↔ x = a ∨ x ∈ l := by
  intro l
  induction l with
  | nil => simp [insertDescBy]
  | cons b l ih =>
    by_cases h : key b ≤ key a
    · simp [insertDescBy, h]
    · simp only [insertDescBy, if_neg h, List.mem_cons, ih]
      tauto

theorem mem_sortDescBy {α K : Type} [LinearOrder K] (key : α → K) (x : α) :
    ∀ l : List α, x ∈ sortDescBy key l ↔ x ∈ l := by
  intro l
  induction l with
  | nil => simp [sortDescBy]
  | cons b l ih => simp [sortDescBy, mem_insertDescBy, ih]

theorem pairwise_insertAscBy {α K : Type} [LinearOrder K] (key : α → K)
    (a : α) : ∀ l : List α, l.Pairwise (fun x y => key x ≤ key y) →
    (insertAscBy key a l).Pairwise (fun x y => key x ≤ key y) := by
  intro l
  induction l with
  | nil => simp [insertAscBy]
  | cons b l ih =>
    intro hp
    rw [List.pairwise_cons] at hp
    by_cases h : key a ≤ key b
    · rw [insertAscBy, if_pos h]
      refine List.Pairwise.cons ?_ (List.Pairwise.cons hp.1 hp.2)
      intro x hx
      rcases List.mem_cons.mp hx with rfl | hx
      · exact h
      · exact le_trans h (hp.1 x hx)
    · rw [insertAscBy, if_neg h]
      refine List.Pairwise.cons ?_ (ih hp.2)
      intro x hx
      rcases (mem_insertAscBy key a x l).mp hx with rfl | hx
      · exact le_of_not_le h
      · exact hp.1 x hx

theorem pairwise_sortAscBy {α K : Type} [LinearOrder K] (key : α → K) :
    ∀ l : List α, (sortAscBy key l).Pairwise (fun x y => key x ≤ key y) := by
  intro l
  induction l with
  | nil => simp [sortAscBy]
  | cons b l ih => exact pairwise_insertAscBy key b _ ih

theorem pairwise_insertDescBy {α K : Type} [LinearOrder K] (key : α → K)
    (a : α) : ∀ l : List α, l.Pairwise (fun x y => key y ≤ key x) →
    (insertDescBy key a l).Pairwise (fun x y => key y ≤ key x) := by
  intro l
  induction l with
  | nil => simp [insertDescBy]
  | cons b l ih =>
    intro hp
    rw [List.pairwise_cons] at hp
    by_cases h : key b ≤ key a
    · rw [insertDescBy, if_pos h]
      refine List.Pairwise.cons ?_ (List.Pairwise.cons hp.1 hp.2)
      intro x hx
      rcases List.mem_cons.mp hx with rfl | hx
      · exact h
      · exact le_trans (hp.1 x hx) h
    · rw [insertDescBy, if_neg h]
      refine List.Pairwise.cons ?_ (ih hp.2)
      intro x hx
      rcases (mem_insertDescBy key a x l).mp hx with rfl | hx
      · exact le_of_not_le h
      · exact hp.1 x hx

theorem pairwise_sortDescBy {α K : Type} [LinearOrder K] (key : α → K) :
    ∀ l : List α, (sortDescBy key l).Pairwise (fun x y => key y ≤ key x) := by
  intro l
  induction l with
  | nil => simp [sortDescBy]
  | cons b l ih => exact pairwise_insertDescBy key b _ ih

theorem rowsOf_cons {V : Type} (w : Bool) (embed : String → V) (i : Nat)
    (d : Doc) (ds : List Doc) :
    rowsOf w embed i (d :: ds) =
      { id := i, filename := d.filename, doc_type := d.doc_type
        title := d.title, content := d.content
        embedding := if w then some (embed (embText d)) else none } ::
        rowsOf w embed (i + 1) ds := rfl

theorem rowsOf_length {V : Type} (w : Bool) (embed : String → V) :
    ∀ (docs : List Doc) (i : Nat),
      (rowsOf w embed i docs).length = docs.length := by
  intro docs
  induction docs with
  | nil => intro i; rfl
  | cons d ds ih => intro i; simp [rowsOf_cons, ih]

theorem rowsOf_append {V : Type} (w : Bool) (embed : String → V) :
    ∀ (a b : List Doc) (i : Nat),
      rowsOf w embed i (a ++ b) =
        rowsOf w embed i a ++ rowsOf w embed (i + a.length) b := by
  intro a
  induction a with
  | nil => intro b i; simp [rowsOf]
  | cons d ds ih =>
    intro b i
    simp only [List.cons_append, rowsOf_cons, ih, List.length_cons]
    have h2 : i + 1 + ds.length = i + (ds.length + 1) := by omega
    rw [h2]

theorem rowsOf_map_doc_type {V : Type} (w : Bool) (embed : String → V) :
    ∀ (docs : List Doc) (i : Nat),
      (rowsOf w embed i docs).map Row.doc_type = docs.map Doc.doc_type := by
  intro docs
  induction docs with
  | nil => intro i; rfl
  | cons d ds ih => intro i; simp [rowsOf_cons, ih]

theorem mem_rowsOf {V : Type} (w : Bool) (embed : String → V) :
    ∀ (docs : List Doc) (i : Nat) (r : Row V), r ∈ rowsOf w embed i docs →
      ∃ d ∈ docs, r.content = d.content := by
  intro docs
  induction docs with
  | nil => intro i r hr; simp [rowsOf] at hr
  | cons d ds ih =>
    intro i r hr
    rw [rowsOf_cons] at hr
    rcases List.mem_cons.mp hr with rfl | hr
    · exact ⟨d, List.mem_cons_self _ _, rfl⟩
    · obtain ⟨d', hd', h⟩ := ih (i + 1) r hr
      exact ⟨d', List.mem_cons_of_mem _ hd', h⟩

/-- The database produced by the batched embedding-insert loop: all the
documents appended, in order, batch boundaries invisible. -/
theorem insertBatchesEmb_db {V : Type} (embed : String → V) {bs : Nat}
    (hbs : bs ≠ 0) :
    ∀ (N : Nat) (docs : List Doc), docs.length ≤ N →
      ∀ (db : DB V) (i total : Nat),
        (insertBatchesEmb embed bs docs db i total).1 =
          db ++ rowsOf true embed db.length docs := by
  intro N
  induction N with
  | zero =>
    intro docs hlen db i total
    have hd : docs = [] := List.length_eq_zero.mp (Nat.le_zero.mp hlen)
    subst hd
    unfold insertBatchesEmb
    simp [rowsOf]
  | succ N ih =>
    intro docs hlen db i total
    by_cases hd : docs = []
    · subst hd
      unfold insertBatchesEmb
      simp [rowsOf]
    · unfold insertBatchesEmb
      rw [dif_neg (by simp [hd, hbs])]
      have hdrop : (docs.drop bs).length ≤ N := by
        rw [List.length_drop]
        have h2 : 0 < docs.length := List.length_pos.mpr hd
        omega
      simp only
      rw [ih _ hdrop]
      conv_rhs => rw [← List.take_append_drop bs docs]
      rw [rowsOf_append]
      simp only [insert_documents, List.append_assoc, List.length_append,
        rowsOf_length]

/-- After the backfill loop finishes, no stored document has a NULL
embedding (for a positive batch size). -/
theorem backfillLoop_nullCount {V : Type} (embed : String → V) {bs : Nat}
    (hbs : 0 < bs) :
    ∀ (N : Nat) (db : DB V), nullCount db ≤ N → ∀ (processed total : Nat),
      nullCount (backfillLoop embed bs db processed total).db = 0 := by
  intro N
  induction N with
  | zero =>
    intro db hn p t
    have h0 : nullCount db = 0 := Nat.le_zero.mp hn
    have hfetch : fetchNullBatch bs db = [] := by
      have hf : db.filter nullEmbedding = [] := List.length_eq_zero.mp h0
      simp [fetchNullBatch, hf]
    unfold backfillLoop
    split
    · exact h0
    · rename_i q rest heq
      rw [hfetch] at heq
      exact absurd heq (by simp)
  | succ N ih =>
    intro db hn p t
    unfold backfillLoop
    split
    · rename_i heq
      have hf : db.filter nullEmbedding = [] := by
        rcases (List.take_eq_nil_iff).mp heq with h | h
        · exact absurd h (Nat.pos_iff_ne_zero.mp hbs)
        · exact h
      simp [nullCount, hf]
    · rename_i q rest heq
      have hlt : nullCount (applyUpdates embed (q :: rest) db) < nullCount db := by
        have h1 := nullCount_applyUpdates_lt embed bs db (by rw [heq]; simp)
        rwa [heq] at h1
      exact ih _ (by omega) _ _

/-- `add_embeddings_to_existing` leaves no NULL embedding behind. -/
theorem add_embeddings_nullCount {V : Type} (embed : String → V) {bs : Nat}
    (hbs : 0 < bs) (db : DB V) :
    nullCount (add_embeddings_to_existing embed bs db).db = 0 := by
  unfold add_embeddings_to_existing
  split
  · rename_i h; exact h
  · exact backfillLoop_nullCount embed hbs (nullCount db) db le_rfl 0 (nullCount db)

theorem mem_updateOne_content {V : Type} (v : V) (i : Nat) (db : DB V)
    (r' : Row V) (h : r' ∈ updateOne v i db) :
    ∃ r ∈ db, r'.content = r.content := by
  obtain ⟨r, hr, hmap⟩ := List.mem_map.mp h
  refine ⟨r, hr, ?_⟩
  by_cases hid : r.id = i
  · rw [if_pos hid] at hmap
    subst hmap
    rfl
  · rw [if_neg hid] at hmap
    subst hmap
    rfl

theorem mem_applyUpdates_content {V : Type} (embed : String → V) :
    ∀ (rows : List (Row V)) (db : DB V) (r' : Row V),
      r' ∈ applyUpdates embed rows db → ∃ r ∈ db, r'.content = r.content := by
  intro rows
  induction rows with
  | nil => intro db r' h; exact ⟨r', by simpa [applyUpdates] using h, rfl⟩
  | cons q rows ih =>
    intro db r' h
    obtain ⟨r1, hr1, hc1⟩ :=
      ih (updateOne (embed (embTextRow q)) q.id db) r' h
    obtain ⟨r2, hr2, hc2⟩ := mem_updateOne_content _ _ _ _ hr1
    exact ⟨r2, hr2, hc1.trans hc2⟩

theorem mem_backfillLoop_content {V : Type} (embed : String → V) (bs : Nat) :
    ∀ (N : Nat) (db : DB V), nullCount db ≤ N → ∀ (p t : Nat) (r' : Row V),
      r' ∈ (backfillLoop embed bs db p t).db →
        ∃ r ∈ db, r'.content = r.content := by
  intro N
  induction N with
  | zero =>
    intro db hn p t r' h
    have h0 : nullCount db = 0 := Nat.le_zero.mp hn
    have hfilter : db.filter nullEmbedding = [] := List.length_eq_zero.mp h0
    unfold backfillLoop at h
    split at h
    · exact ⟨r', h, rfl⟩
    · rename_i q rest heq
      rw [fetchNullBatch, hfilter] at heq
      exact absurd heq (by simp)
  | succ N ih =>
    intro db hn p t r' h
    unfold backfillLoop at h
    split at h
    · exact ⟨r', h, rfl⟩
    · rename_i q rest heq
      dsimp only at h
      have hlt : nullCount (applyUpdates embed (q :: rest) db) < nullCount db := by
        have h1 := nullCount_applyUpdates_lt embed bs db (by rw [heq]; simp)
        rwa [heq] at h1
      obtain ⟨r1, hr1, hc1⟩ := ih _ (by omega) _ _ _ h
      obtain ⟨r2, hr2, hc2⟩ := mem_applyUpdates_content embed _ _ _ hr1
      exact ⟨r2, hr2, hc1.trans hc2⟩

theorem mem_add_embeddings_content {V : Type} (embed : String → V)
    (bs : Nat) (db : DB V) (r' : Row V)
    (h : r' ∈ (add_embeddings_to_existing embed bs db).db) :
    ∃ r ∈ db, r'.content = r.content := by
  unfold add_embeddings_to_existing at h
  split at h
  · exact ⟨r', h, rfl⟩
  · exact mem_backfillLoop_content embed bs (nullCount db) db le_rfl 0
      (nullCount db) r' h

/-- Every row in the store after a successful `load_logseq_vault` either
was there before or carries the content of a loaded draft. -/
theorem mem_load_logseq_vault {V : Type} (embed : String → V)
    (pagesDir journalsDir : List MdFile) (w : Bool) (bs : Nat) (db : DB V)
    (res : DB V × VaultCounts × List (Nat × Nat))
    (h : load_logseq_vault embed pagesDir journalsDir w bs db = .ok res) :
    ∀ r ∈ res.1, r ∈ db ∨
      ∃ d ∈ load_markdown_files pagesDir "page" ++
        load_markdown_files journalsDir "journal", r.content = d.content := by
  intro r hr
  unfold load_logseq_vault at h
  split at h
  · split at h
    · exact absurd h (by simp)
    · rename_i hbs
      rw [Except.ok.injEq] at h
      rw [← h] at hr
      dsimp only at hr
      rw [insertBatchesEmb_db embed hbs _ _ le_rfl] at hr
      rcases List.mem_append.mp hr with h1 | h1
      · exact Or.inl h1
      · exact Or.inr (mem_rowsOf true embed _ _ r h1)
  · rw [Except.ok.injEq] at h
    rw [← h] at hr
    dsimp only [insert_documents] at hr
    rcases List.mem_append.mp hr with h1 | h1
    · exact Or.inl h1
    · exact Or.inr (mem_rowsOf false embed _ _ r h1)

theorem dotP_self_nonneg {n : Nat} (u : Fin n → ℝ) : 0 ≤ dotP u u :=
  Finset.sum_nonneg fun i _ => mul_self_nonneg (u i)

/-- Cauchy–Schwarz for `dotP`. -/
theorem dotP_sq_le {n : Nat} (u v : Fin n → ℝ) :
    dotP u v * dotP u v ≤ dotP u u * dotP v v := by
  have h := Finset.sum_mul_sq_le_sq_mul_sq Finset.univ u v
  simpa only [dotP, pow_two] using h

/-- The similarity `1 - (u <=> v)` reported by the vector engine lies in
`[-1, 1]`. -/
theorem cosine_sim_bounds {n : Nat} (u v : Fin n → ℝ) :
    -1 ≤ 1 - cosineDistance Real.sqrt u v ∧
      1 - cosineDistance Real.sqrt u v ≤ 1 := by
  have hsim : 1 - cosineDistance Real.sqrt u v =
      dotP u v / (Real.sqrt (dotP u u) * Real.sqrt (dotP v v)) := by
    rw [cosineDistance]; ring
  rw [hsim]
  have hd0 : 0 ≤ Real.sqrt (dotP u u) * Real.sqrt (dotP v v) :=
    mul_nonneg (Real.sqrt_nonneg _) (Real.sqrt_nonneg _)
  have habs : |dotP u v| ≤ Real.sqrt (dotP u u) * Real.sqrt (dotP v v) := by
    rw [← Real.sqrt_sq_eq_abs, ← Real.sqrt_mul (dotP_self_nonneg u)]
    exact Real.sqrt_le_sqrt (by simpa only [pow_two] using dotP_sq_le u v)
  have hboth := abs_le.mp habs
  rcases eq_or_lt_of_le hd0 with heq | hpos
  · rw [← heq, div_zero]
    norm_num
  · constructor
    · rw [le_div_iff hpos]
      linarith [hboth.1]
    · rw [div_le_one hpos]
      exact hboth.2

/-! ## Claim theorems -/

/-- Claim C1: the claim says the table created by `create_schema()`
contains every column of the storage contract, including a nullable
vector column `embedding`.  The code contradicts itself: `create_schema`
creates no `embedding` column, while `insert_documents` with
`with_embeddings=True` and `add_embeddings_to_existing` both address
one, so those statements target a column absent from the schema. -/
theorem claim_C1_schema_missing_embedding :
    "embedding" ∉ create_schema_columns ∧
    "embedding" ∈ insert_with_embeddings_columns ∧
    "embedding" ∈ backfill_update_columns ∧
    columnsOk insert_with_embeddings_columns create_schema_columns = false ∧
    columnsOk backfill_update_columns create_schema_columns = false := by
  decide

/-- Claim C10: `__init__.py` re-exports `EMBEDDING_DIM` from the `db`
module, but db.py binds no such name, so importing the package raises
ImportError before any operation can run. -/
theorem claim_C10_import_error :
    import_logseq_searcher = .error "EMBEDDING_DIM" ∧
    "EMBEDDING_DIM" ∈ init_imports_from_db ∧
    "EMBEDDING_DIM" ∉ db_module_names :=
  ⟨rfl, by decide, by decide⟩

/-- Claim C8: `load_db_config` fails exactly when at least one of host,
database name, user or password is unset or empty; the raised error
enumerates precisely the missing keys and never lists `port`; and a
successful load takes the port from the environment with `'5432'` as the
default for an unset port. -/
theorem claim_C8_config (e : Env) :
    ((∃ m, load_db_config e = .error m) ↔
      (falsy e.host = true ∨ falsy e.dbname = true ∨ falsy e.user = true ∨
        falsy e.password = true)) ∧
    (∀ m, load_db_config e = .error m →
      (("host" ∈ m ↔ falsy e.host = true) ∧
       ("dbname" ∈ m ↔ falsy e.dbname = true) ∧
       ("user" ∈ m ↔ falsy e.user = true) ∧
       ("password" ∈ m ↔ falsy e.password = true) ∧
       "port" ∉ m)) ∧
    (∀ c, load_db_config e = .ok c →
      c.port = e.port.getD "5432") := by
  cases h1 : falsy e.host <;> cases h2 : falsy e.dbname <;>
    cases h3 : falsy e.user <;> cases h4 : falsy e.password <;>
      simp [load_db_config, missingOf, h1, h2, h3, h4]

/-- Claim C7, counterexample to "commits exactly once per call": a call
with an empty documents list succeeds, opens no connection, and issues
zero commits, not one. -/
theorem claim_C7_counterexample :
    (insert_documents_txn false (.ok ()) (.ok ()) []).result = .ok () ∧
    ¬ (insert_documents_txn false (.ok ()) (.ok ()) []).commits = 1 ∧
    (insert_documents_txn false (.ok ()) (.ok ()) []).opened = 0 :=
  ⟨rfl, by decide, rfl⟩

/-- Claim C7 as amended: for a non-empty documents list,
`insert_documents` commits exactly once when its body succeeds; on an
exception nothing is committed, the outcome of the body (success or the
exception) propagates unchanged, and the connection is closed on every
exit path. -/
theorem claim_C7_amended (withEmb : Bool) (embedR execR : Except String Unit)
    (docs : List Doc) (h : docs ≠ []) :
    ((insert_documents_txn withEmb embedR execR docs).result =
      insertBody withEmb embedR execR) ∧
    (insertBody withEmb embedR execR = .ok () →
      (insert_documents_txn withEmb embedR execR docs).commits = 1) ∧
    (∀ e, insertBody withEmb embedR execR = .error e →
      (insert_documents_txn withEmb embedR execR docs).commits = 0) ∧
    (insert_documents_txn withEmb embedR execR docs).closed =
      (insert_documents_txn withEmb embedR execR docs).opened := by
  simp only [insert_documents_txn, if_neg h]
  cases hb : insertBody withEmb embedR execR with
  | ok u => cases u; simp
  | error e => simp

/-- Witness for the amended claim C7 at a concrete one-document call. -/
theorem claim_C7_amended_witness :
    (([⟨"a.md", "page", "a", "x"⟩] : List Doc) ≠ []) ∧
    (((insert_documents_txn false (.ok ()) (.ok ())
        [⟨"a.md", "page", "a", "x"⟩]).result =
      insertBody false (.ok ()) (.ok ())) ∧
    (insertBody false (.ok ()) (.ok ()) = .ok () →
      (insert_documents_txn false (.ok ()) (.ok ())
        [⟨"a.md", "page", "a", "x"⟩]).commits = 1) ∧
    (∀ e, insertBody false (.ok ()) (.ok ()) = .error e →
      (insert_documents_txn false (.ok ()) (.ok ())
        [⟨"a.md", "page", "a", "x"⟩]).commits = 0) ∧
    (insert_documents_txn false (.ok ()) (.ok ())
        [⟨"a.md", "page", "a", "x"⟩]).closed =
      (insert_documents_txn false (.ok ()) (.ok ())
        [⟨"a.md", "page", "a", "x"⟩]).opened) :=
  ⟨List.cons_ne_nil _ _,
   claim_C7_amended false (.ok ()) (.ok ()) _ (List.cons_ne_nil _ _)⟩

/-- Claim C2: the claim says that when a `doc_type` is given every row
returned by `hybrid_search` has that `doc_type`.  Because the code
appends `" AND d.doc_type = %s"` after `... OR s.similarity > 0.3`, SQL
precedence attaches the test to the similarity disjunct only, and a
full-text-matching document of a different `doc_type` still comes back:
here a `journal` row is returned under a `page` filter. -/
theorem claim_C2_doc_type_leak :
    (hybrid_search (fun _ => true) (fun _ => 1) (fun _ : Unit => 0)
        (fun _ => "")
        [{ id := 1, filename := "j.md", doc_type := "journal", title := "t",
           content := "c", embedding := none }]
        (some "page") 1 1 10).map HRow.doc_type = ["journal"] := by
  rfl

/-- Claim C3: every row returned by `hybrid_search` has
`combined_score = fts_rank * fts_weight + similarity * semantic_weight`
(components defaulting to 0 on a missing axis), and comes from a stored
document with a lexical match for the query or a semantic similarity
strictly above 0.3. -/
theorem claim_C3_combined_score {V : Type} (mq : Row V → Bool)
    (rq : Row V → ℚ) (vdist : V → ℚ) (hl : String → String) (db : DB V)
    (dt : Option String) (w1 w2 : ℚ) (limit : Nat) :
    ∀ r ∈ hybrid_search mq rq vdist hl db dt w1 w2 limit,
      r.combined_score = r.fts_rank * w1 + r.similarity * w2 ∧
      ∃ d ∈ db, r = hybridRow mq rq vdist hl w1 w2 d ∧
        (mq d = true ∨ (3 : ℚ)/10 < r.similarity) := by
  intro r hr
  have hr1 : r ∈ sortDescBy HRow.combined_score
      ((db.filter (hybridIncluded mq vdist dt)).map
        (hybridRow mq rq vdist hl w1 w2)) :=
    List.mem_of_mem_take hr
  rw [mem_sortDescBy] at hr1
  obtain ⟨d, hd, rfl⟩ := List.mem_map.mp hr1
  have hdb : d ∈ db := (List.mem_filter.mp hd).1
  have hdIncl : hybridIncluded mq vdist dt d = true := (List.mem_filter.mp hd).2
  refine ⟨by simp [hybridRow], d, hdb, rfl, ?_⟩
  simp only [hybridIncluded, Bool.or_eq_true] at hdIncl
  rcases hdIncl with hmq | hmatch
  · exact Or.inl hmq
  · right
    cases he : d.embedding with
    | none => rw [he] at hmatch; cases dt <;> simp at hmatch
    | some e =>
      rw [he] at hmatch
      have hsim : (hybridRow mq rq vdist hl w1 w2 d).similarity = 1 - vdist e := by
        simp [hybridRow, he]
      rw [hsim]
      cases dt with
      | none => simpa using hmatch
      | some t =>
        simp only [Bool.and_eq_true, decide_eq_true_eq] at hmatch
        exact hmatch.1

/-- Witness for claim C3 at a concrete store and call. -/
theorem claim_C3_combined_score_witness :
    ((hybridRow (fun _ => true) (fun _ => (1 : ℚ)) (fun _ : Unit => (0 : ℚ))
        (fun _ => "") 1 1 ⟨1, "j.md", "journal", "t", "c", none⟩) ∈
      hybrid_search (fun _ => true) (fun _ => (1 : ℚ)) (fun _ : Unit => (0 : ℚ))
        (fun _ => "") [⟨1, "j.md", "journal", "t", "c", none⟩] none 1 1 10) ∧
    ((hybridRow (fun _ => true) (fun _ => (1 : ℚ)) (fun _ : Unit => (0 : ℚ))
        (fun _ => "") 1 1 ⟨1, "j.md", "journal", "t", "c", none⟩).combined_score =
      (hybridRow (fun _ => true) (fun _ => (1 : ℚ)) (fun _ : Unit => (0 : ℚ))
        (fun _ => "") 1 1 ⟨1, "j.md", "journal", "t", "c", none⟩).fts_rank * 1 +
      (hybridRow (fun _ => true) (fun _ => (1 : ℚ)) (fun _ : Unit => (0 : ℚ))
        (fun _ => "") 1 1 ⟨1, "j.md", "journal", "t", "c", none⟩).similarity * 1 ∧
      ∃ d ∈ [(⟨1, "j.md", "journal", "t", "c", none⟩ : Row Unit)],
        hybridRow (fun _ => true) (fun _ => (1 : ℚ)) (fun _ : Unit => (0 : ℚ))
          (fun _ => "") 1 1 ⟨1, "j.md", "journal", "t", "c", none⟩ =
          hybridRow (fun _ => true) (fun _ => (1 : ℚ)) (fun _ : Unit => (0 : ℚ))
            (fun _ => "") 1 1 d ∧
        ((fun _ : Row Unit => true) d = true ∨
          (3 : ℚ)/10 < (hybridRow (fun _ => true) (fun _ => (1 : ℚ))
            (fun _ : Unit => (0 : ℚ)) (fun _ => "") 1 1
            ⟨1, "j.md", "journal", "t", "c", none⟩).similarity)) :=
  ⟨List.mem_cons_self _ _,
   claim_C3_combined_score (fun _ => true) (fun _ => (1 : ℚ))
     (fun _ : Unit => (0 : ℚ)) (fun _ => "")
     [⟨1, "j.md", "journal", "t", "c", none⟩] none 1 1 10
     (hybridRow (fun _ => true) (fun _ => (1 : ℚ)) (fun _ : Unit => (0 : ℚ))
       (fun _ => "") 1 1 ⟨1, "j.md", "journal", "t", "c", none⟩)
     (List.mem_cons_self _ _)⟩

/-- Claim C4: `semantic_search` returns only documents with a non-NULL
embedding; each returned row's similarity is `1 - distance` between the
stored embedding and the query embedding and lies in `[-1, 1]`; and the
similarities are non-increasing in return order. -/
theorem claim_C4_semantic_search {n : Nat} (db : DB (Fin n → ℝ))
    (qv : Fin n → ℝ) (dt : Option String) (limit : Nat) :
    (∀ r ∈ semantic_search (fun e => cosineDistance Real.sqrt e qv) db dt limit,
      (∃ d ∈ db, ∃ e, d.embedding = some e ∧ r.id = d.id ∧
        r.similarity = 1 - cosineDistance Real.sqrt e qv) ∧
      -1 ≤ r.similarity ∧ r.similarity ≤ 1) ∧
    ((semantic_search (fun e => cosineDistance Real.sqrt e qv) db dt limit).map
      SemRow.similarity).Pairwise (fun a b => b ≤ a) := by
  constructor
  · intro r hr
    simp only [semantic_search] at hr
    obtain ⟨p, hp, rfl⟩ := List.mem_map.mp hr
    have hp1 := List.mem_of_mem_take hp
    rw [mem_sortAscBy] at hp1
    have hp2 : p ∈ db.filterMap
        (fun d => d.embedding.map
          (fun e => (d, cosineDistance Real.sqrt e qv))) := by
      cases dt with
      | none => exact hp1
      | some t => exact (List.mem_filter.mp hp1).1
    obtain ⟨d, hd, hmap⟩ := List.mem_filterMap.mp hp2
    cases he : d.embedding with
    | none => rw [he] at hmap; simp at hmap
    | some e =>
      rw [he] at hmap
      simp only [Option.map_some', Option.some.injEq] at hmap
      subst hmap
      exact ⟨⟨d, hd, e, he, rfl, rfl⟩,
        (cosine_sim_bounds e qv).1, (cosine_sim_bounds e qv).2⟩
  · simp only [semantic_search]
    rw [List.pairwise_map, List.pairwise_map]
    exact List.Pairwise.imp (fun h => by dsimp only; linarith)
      (List.Pairwise.sublist (List.take_sublist _ _) (pairwise_sortAscBy _ _))

/-- Claim C5: every draft produced by `load_markdown_files` has NUL-free
content, and starting from an empty store, any sequence of vault loads
and backfill runs — the only write paths — leaves every stored content
NUL-free. -/
theorem claim_C5_no_nul {V : Type} (embed : String → V) (ops : List (Op V)) :
    ∀ r ∈ runOps embed ops ([] : DB V), '\x00' ∉ r.content.data := by
  have hstep : ∀ (db : DB V) (op : Op V),
      (∀ r ∈ db, '\x00' ∉ r.content.data) →
      ∀ r ∈ runOp embed db op, '\x00' ∉ r.content.data := by
    intro db op hdb
    cases op with
    | loadVault p j w bs =>
      intro r hr
      cases hload : load_logseq_vault embed p j w bs db with
      | ok res =>
        have hr1 : r ∈ res.1 := by
          simp only [runOp] at hr
          rw [hload] at hr
          exact hr
        rcases mem_load_logseq_vault embed p j w bs db res hload r hr1
          with h1 | ⟨d, hd, hc⟩
        · exact hdb r h1
        · rw [hc]
          rcases List.mem_append.mp hd with h2 | h2
          · exact load_markdown_files_no_nul _ _ d h2
          · exact load_markdown_files_no_nul _ _ d h2
      | error e =>
        have hr1 : r ∈ db := by
          simp only [runOp] at hr
          rw [hload] at hr
          exact hr
        exact hdb r hr1
    | backfill bs =>
      intro r hr
      unfold runOp at hr
      obtain ⟨r0, hr0, hc⟩ := mem_add_embeddings_content embed bs db r hr
      rw [hc]
      exact hdb r0 hr0
  have main : ∀ (ops : List (Op V)) (db : DB V),
      (∀ r ∈ db, '\x00' ∉ r.content.data) →
      ∀ r ∈ runOps embed ops db, '\x00' ∉ r.content.data := by
    intro ops
    induction ops with
    | nil => intro db hdb; simpa [runOps] using hdb
    | cons op ops ih =>
      intro db hdb
      exact ih (runOp embed db op) (hstep db op hdb)
  exact main ops [] (by simp)

/-- Witness for claim C5 on a one-file vault load. -/
theorem claim_C5_no_nul_witness :
    ((⟨0, "a.md", "page", "a", "hello", none⟩ : Row Unit) ∈
      runOps (fun _ => ())
        [Op.loadVault [⟨"a.md", some "hello"⟩] [] false 1] []) ∧
    '\x00' ∉ (⟨0, "a.md", "page", "a", "hello", none⟩ : Row Unit).content.data :=
  ⟨by decide,
   claim_C5_no_nul (fun _ => ())
     [Op.loadVault [⟨"a.md", some "hello"⟩] [] false 1]
     ⟨0, "a.md", "page", "a", "hello", none⟩ (by decide)⟩

/-- Claim C6: when no stored document has a NULL embedding,
`add_embeddings_to_existing` returns immediately — no row written, no
batch embedded, no callback; consequently a second call right after a
completed first call (positive batch size) is such a no-op. -/
theorem claim_C6_backfill_idempotent {V : Type} (embed : String → V)
    (bs : Nat) (db : DB V) (hbs : 0 < bs) :
    (nullCount db = 0 →
      add_embeddings_to_existing embed bs db =
        { db := db, processed := 0, embedBatches := 0, callbacks := [] }) ∧
    add_embeddings_to_existing embed bs
        ((add_embeddings_to_existing embed bs db).db) =
      { db := (add_embeddings_to_existing embed bs db).db, processed := 0
        embedBatches := 0, callbacks := [] } := by
  constructor
  · intro h
    unfold add_embeddings_to_existing
    rw [if_pos h]
  · have h0 := add_embeddings_nullCount embed hbs db
    set X := (add_embeddings_to_existing embed bs db).db with hX
    unfold add_embeddings_to_existing
    rw [if_pos h0]

/-- Witness for claim C6 at a concrete store and batch size 1. -/
theorem claim_C6_backfill_idempotent_witness :
    0 < 1 ∧
    ((nullCount [(⟨1, "a.md", "page", "a", "x", some ()⟩ : Row Unit)] = 0 →
      add_embeddings_to_existing (fun _ => ()) 1
          [(⟨1, "a.md", "page", "a", "x", some ()⟩ : Row Unit)] =
        ⟨[(⟨1, "a.md", "page", "a", "x", some ()⟩ : Row Unit)], 0, 0, []⟩) ∧
    add_embeddings_to_existing (fun _ => ()) 1
        ((add_embeddings_to_existing (fun _ => ()) 1
          [(⟨1, "a.md", "page", "a", "x", some ()⟩ : Row Unit)]).db) =
      ⟨(add_embeddings_to_existing (fun _ => ()) 1
          [(⟨1, "a.md", "page", "a", "x", some ()⟩ : Row Unit)]).db, 0, 0, []⟩) :=
  ⟨Nat.one_pos, claim_C6_backfill_idempotent (fun _ => ()) 1 _ Nat.one_pos⟩

theorem filter_doc_type_as_map {V : Type} (db : DB V) (t : String) :
    (db.filter (fun r => r.doc_type = t)).length =
      ((db.map Row.doc_type).filter (fun s => s = t)).length := by
  rw [← List.countP_eq_length_filter, ← List.countP_eq_length_filter,
    List.countP_map]
  rfl

theorem map_doc_type_replicate (files : List MdFile) (dt : String) :
    (load_markdown_files files dt).map Doc.doc_type =
      List.replicate (load_markdown_files files dt).length dt := by
  apply List.eq_replicate.mpr
  refine ⟨by simp, ?_⟩
  intro b hb
  obtain ⟨d, hd, rfl⟩ := List.mem_map.mp hb
  exact load_markdown_files_doc_type files dt d hd

theorem filter_replicate_same (p : Nat) (t : String) :
    ((List.replicate p t).filter (fun s => s = t)).length = p := by
  have hall : ∀ s ∈ List.replicate p t, decide (s = t) = true := by
    intro s hs
    simp [List.eq_of_mem_replicate hs]
  rw [List.filter_eq_self.mpr hall, List.length_replicate]

theorem filter_replicate_other (p : Nat) (t u : String) (h : t ≠ u) :
    ((List.replicate p t).filter (fun s => s = u)).length = 0 := by
  have hall : ((List.replicate p t).filter (fun s => s = u)) = [] := by
    apply List.filter_eq_nil.mpr
    intro s hs
    simp [List.eq_of_mem_replicate hs, h]
  rw [hall]
  rfl

/-- Count and sum facts about the store that a vault load leaves behind,
in terms of the deduplicating `GROUP BY` of `get_document_count`. -/
theorem rows_counts {V : Type} (w : Bool) (embed : String → V)
    (pagesDir journalsDir : List MdFile) :
    ((rowsOf (V := V) w embed 0
        (load_markdown_files pagesDir "page" ++
          load_markdown_files journalsDir "journal")).filter
      (fun r => r.doc_type = "page")).length =
        (load_markdown_files pagesDir "page").length ∧
    ((rowsOf (V := V) w embed 0
        (load_markdown_files pagesDir "page" ++
          load_markdown_files journalsDir "journal")).filter
      (fun r => r.doc_type = "journal")).length =
        (load_markdown_files journalsDir "journal").length ∧
    ((get_document_count (rowsOf (V := V) w embed 0
        (load_markdown_files pagesDir "page" ++
          load_markdown_files journalsDir "journal"))).map Prod.snd).sum =
      (load_markdown_files pagesDir "page").length +
        (load_markdown_files journalsDir "journal").length := by
  have hmap : (rowsOf (V := V) w embed 0
      (load_markdown_files pagesDir "page" ++
        load_markdown_files journalsDir "journal")).map Row.doc_type =
      List.replicate (load_markdown_files pagesDir "page").length "page" ++
        List.replicate (load_markdown_files journalsDir "journal").length
          "journal" := by
    rw [rowsOf_map_doc_type, List.map_append, map_doc_type_replicate,
      map_doc_type_replicate]
  refine ⟨?_, ?_, ?_⟩
  · rw [filter_doc_type_as_map, hmap, List.filter_append, List.length_append,
      filter_replicate_same, filter_replicate_other _ _ _ (by decide)]
    omega
  · rw [filter_doc_type_as_map, hmap, List.filter_append, List.length_append,
      filter_replicate_other _ _ _ (by decide), filter_replicate_same]
    omega
  · unfold get_document_count
    rw [List.map_map]
    have hcomp : (Prod.snd ∘ fun t =>
        (t, ((rowsOf (V := V) w embed 0
          (load_markdown_files pagesDir "page" ++
            load_markdown_files journalsDir "journal")).map Row.doc_type).count t)) =
        fun t => ((rowsOf (V := V) w embed 0
          (load_markdown_files pagesDir "page" ++
            load_markdown_files journalsDir "journal")).map Row.doc_type).count t :=
      rfl
    rw [hcomp, List.sum_map_count_dedup_eq_length, List.length_map,
      rowsOf_length, List.length_append]

/-- Claim C9: on a vault whose pages directory yields `p` readable
Markdown files and whose journals directory yields `j`,
`load_logseq_vault` (with a positive batch size) succeeds and returns
counts `{pages := p, journals := j, total := p + j}`; run against empty
storage it leaves `p` rows of doc_type `page` and `j` of `journal`, and
the values of `get_document_count` sum to the returned total. -/
theorem claim_C9_vault_counts {V : Type} (embed : String → V)
    (pagesDir journalsDir : List MdFile) (withEmb : Bool) (bs : Nat)
    (hbs : 0 < bs) :
    ∃ db' cbs,
      load_logseq_vault embed pagesDir journalsDir withEmb bs ([] : DB V) =
        .ok (db',
          { pages := (load_markdown_files pagesDir "page").length
            journals := (load_markdown_files journalsDir "journal").length
            total := (load_markdown_files pagesDir "page").length +
              (load_markdown_files journalsDir "journal").length }, cbs) ∧
      (db'.filter (fun r => r.doc_type = "page")).length =
        (load_markdown_files pagesDir "page").length ∧
      (db'.filter (fun r => r.doc_type = "journal")).length =
        (load_markdown_files journalsDir "journal").length ∧
      ((get_document_count db').map Prod.snd).sum =
        (load_markdown_files pagesDir "page").length +
          (load_markdown_files journalsDir "journal").length := by
  obtain ⟨h1, h2, h3⟩ := rows_counts (V := V) withEmb embed pagesDir journalsDir
  cases withEmb with
  | false =>
    refine ⟨rowsOf false embed 0
        (load_markdown_files pagesDir "page" ++
          load_markdown_files journalsDir "journal"),
      [((load_markdown_files pagesDir "page" ++
          load_markdown_files journalsDir "journal").length,
        (load_markdown_files pagesDir "page" ++
          load_markdown_files journalsDir "journal").length)],
      ?_, h1, h2, h3⟩
    unfold load_logseq_vault
    simp [insert_documents, List.length_append]
  | true =>
    refine ⟨rowsOf true embed 0
        (load_markdown_files pagesDir "page" ++
          load_markdown_files journalsDir "journal"),
      (insertBatchesEmb embed bs
        (load_markdown_files pagesDir "page" ++
          load_markdown_files journalsDir "journal") [] 0
        (load_markdown_files pagesDir "page" ++
          load_markdown_files journalsDir "journal").length).2,
      ?_, h1, h2, h3⟩
    unfold load_logseq_vault
    rw [if_pos rfl, if_neg (Nat.pos_iff_ne_zero.mp hbs)]
    simp only []
    rw [insertBatchesEmb_db embed (Nat.pos_iff_ne_zero.mp hbs) _ _ le_rfl]
    simp [List.length_append]

/-- Witness for claim C9 on a one-page, zero-journal vault. -/
theorem claim_C9_vault_counts_witness :
    0 < 1 ∧
    ∃ db' cbs,
      load_logseq_vault (fun _ => ()) [⟨"a.md", some "hello"⟩] [] false 1
          ([] : DB Unit) =
        .ok (db',
          { pages := (load_markdown_files [⟨"a.md", some "hello"⟩] "page").length
            journals := (load_markdown_files ([] : List MdFile) "journal").length
            total := (load_markdown_files [⟨"a.md", some "hello"⟩] "page").length +
              (load_markdown_files ([] : List MdFile) "journal").length }, cbs) ∧
      (db'.filter (fun r => r.doc_type = "page")).length =
        (load_markdown_files [⟨"a.md", some "hello"⟩] "page").length ∧
      (db'.filter (fun r => r.doc_type = "journal")).length =
        (load_markdown_files ([] : List MdFile) "journal").length ∧
      ((get_document_count db').map Prod.snd).sum =
        (load_markdown_files [⟨"a.md", some "hello"⟩] "page").length +
          (load_markdown_files ([] : List MdFile) "journal").length :=
  ⟨Nat.one_pos,
   claim_C9_vault_counts (fun _ => ()) [⟨"a.md", some "hello"⟩] [] false 1
     Nat.one_pos⟩

end LogseqSearcher
